import Mathlib

/-!
# Verification of `scripts/gen_traffic.py`

A shallow embedding of the pcap traffic generator: the `DexSwapTx` record
codec (`encode_dex_swap_tx`), the scenario constructors (`make_small_swap`,
`make_large_swap`, `make_tight_slippage_swap`), the Ethernet/IPv4/UDP frame
builder (`ethernet_ip_udp_frame`), the pcap writer (`write_pcap`) and the
driver loop (`main`).

Conventions of the embedding:

* A byte string is a `List ℕ` of values `< 256`.
* Python integers are `ℤ` (unbounded); values drawn from the random module
  are `ℕ` since `random.randint(a, b)` with `0 ≤ a` always yields a
  non-negative integer in `[a, b]`.
* `struct.pack` raises `struct.error` when a value does not fit the
  fixed-width field it is packed into (`H` requires `0 ≤ x ≤ 0xFFFF`,
  `I` requires `0 ≤ x ≤ 0xFFFFFFFF`).  Fallible operations are therefore
  embedded as `Option`: `none` is a raised exception.
* Python's `random` module is a deterministic generator seeded once per
  run; it is embedded as an abstract stream `g : ℕ → ℕ` of raw draws
  (draw index ↦ value), each bounded draw taking `g k % range` like
  `_randbelow`.  Nothing below depends on the distribution, only on the
  range of each draw and on the fixed draw order.
* CPython computes `int(n * 0.999)` by converting `n` to binary64
  (exact for `n < 2^53`), multiplying by the binary64 literal
  (round-to-nearest-even on 53-bit significands) and truncating toward
  zero.  This is embedded exactly (`pyFloorMulD`) at the integer level:
  the binary64 literal `c` is represented by its significand `D` with
  `c = D / 2^53`.
-/

/-- Little-endian bytes of `x % 256^k`, `k` bytes long (fixed-width field of
`struct.pack "<..."`). -/
def leBytes : ℕ → ℕ → List ℕ
  | 0, _ => []
  | k + 1, x => x % 256 :: leBytes k (x / 256)

/-- `struct.pack "<Q"` (the packed value is masked to 64 bits by the caller). -/
def u64le (x : ℕ) : List ℕ := leBytes 8 x

/-- `struct.pack "<I"` byte image (range check done at the call sites). -/
def u32le (x : ℕ) : List ℕ := leBytes 4 x

/-- `struct.pack "<H"` byte image. -/
def u16le (x : ℕ) : List ℕ := leBytes 2 x

/-- Big-endian (network order) bytes, `struct.pack ">H"` / `">I"` image. -/
def beBytes (k x : ℕ) : List ℕ := (leBytes k x).reverse

/-- Read a little-endian unsigned integer from a byte list. -/
def decodeLE (bs : List ℕ) : ℕ := bs.foldr (fun b acc => acc * 256 + b) 0

theorem leBytes_length (k x : ℕ) : (leBytes k x).length = k := by
  induction k generalizing x with
  | zero => rfl
  | succ k ih => simp [leBytes, ih]

theorem decodeLE_leBytes (k x : ℕ) : decodeLE (leBytes k x) = x % 256 ^ k := by
  induction k generalizing x with
  | zero => simp [leBytes, decodeLE, Nat.mod_one]
  | succ k ih =>
    have hmul : x % (256 * 256 ^ k) = x % 256 + 256 * (x / 256 % 256 ^ k) :=
      Nat.mod_mul
    have hfold : decodeLE (x % 256 :: leBytes k (x / 256))
        = decodeLE (leBytes k (x / 256)) * 256 + x % 256 := rfl
    rw [leBytes, hfold, ih (x / 256), pow_succ]
    rw [mul_comm (256 ^ k) 256, hmul]
    ring

/-- Python `z & 0xFFFF_FFFF_FFFF_FFFF` on an unbounded (possibly negative)
integer: the canonical representative of `z` modulo `2^64`. -/
def mask64 (z : ℤ) : ℕ := (z % (2 ^ 64 : ℤ)).toNat

theorem mask64_lt (z : ℤ) : mask64 z < 2 ^ 64 := by
  have hpos : (0 : ℤ) < 2 ^ 64 := by positivity
  have h := Int.emod_lt_of_pos z hpos
  have h0 := Int.emod_nonneg z (by positivity : (2 ^ 64 : ℤ) ≠ 0)
  unfold mask64
  omega

/-! ## `encode_dex_swap_tx` (gen_traffic.py lines 40–57)

```python
assert len(pool_address) == 20, "pool_address must be 20 bytes"
assert token_direction in (0, 1), "token_direction must be 0 or 1"
return struct.pack(
    "<Q20sQQBxxx",
    nonce & 0xFFFF_FFFF_FFFF_FFFF,
    pool_address,
    amount_in & 0xFFFF_FFFF_FFFF_FFFF,
    min_amount_out & 0xFFFF_FFFF_FFFF_FFFF,
    token_direction,
)
```
A failed `assert` raises `AssertionError`: embedded as `none`. -/
def encode_dex_swap_tx (nonce : ℤ) (pool_address : List ℕ)
    (amount_in min_amount_out : ℤ) (token_direction : ℤ) : Option (List ℕ) :=
  if pool_address.length = 20 ∧ (token_direction = 0 ∨ token_direction = 1) then
    some (u64le (mask64 nonce) ++ pool_address ++ u64le (mask64 amount_in) ++
      u64le (mask64 min_amount_out) ++ [token_direction.toNat, 0, 0, 0])
  else none

/-- Independent decoder of the fixed 48-byte layout (nonce at 0 as u64 LE,
pool at 8 as 20 raw bytes, amountIn at 28 as u64 LE, minAmountOut at 36 as
u64 LE, tokenDirection at 44 as u8); used only to state round-trip facts,
the codec itself is write-only. -/
def decode_dex_swap_tx (bs : List ℕ) : ℕ × List ℕ × ℕ × ℕ × ℕ :=
  (decodeLE (bs.take 8), (bs.drop 8).take 20,
   decodeLE ((bs.drop 28).take 8), decodeLE ((bs.drop 36).take 8),
   (bs.drop 44).headI)

/-- The encoded record, split into its five segments (for offset reasoning). -/
theorem encode_eq_segments (nonce : ℤ) (pool : List ℕ) (a m d : ℤ)
    (hpool : pool.length = 20) (hdir : d = 0 ∨ d = 1) :
    encode_dex_swap_tx nonce pool a m d =
      some (u64le (mask64 nonce) ++ pool ++ u64le (mask64 a) ++
        u64le (mask64 m) ++ [d.toNat, 0, 0, 0]) := by
  unfold encode_dex_swap_tx
  rw [if_pos ⟨hpool, hdir⟩]

theorem encode_length (nonce : ℤ) (pool : List ℕ) (a m d : ℤ)
    (hpool : pool.length = 20) (hdir : d = 0 ∨ d = 1) :
    ∃ bs, encode_dex_swap_tx nonce pool a m d = some bs ∧ bs.length = 48 := by
  refine ⟨_, encode_eq_segments nonce pool a m d hpool hdir, ?_⟩
  simp [List.length_append, leBytes_length, u64le, hpool]

/-- Reading back a full-width little-endian field recovers the masked value. -/
theorem decodeLE_u64le_mask (z : ℤ) : decodeLE (u64le (mask64 z)) = mask64 z := by
  rw [u64le, decodeLE_leBytes]
  exact Nat.mod_eq_of_lt (lt_of_lt_of_le (mask64_lt z) (by norm_num))

/-- **C2.** For every input satisfying the preconditions (20-byte pool
address, direction 0 or 1, any integer nonce/amountIn/minAmountOut), the
returned byte string has length exactly 48. -/
theorem C2_encode_fixed_width (nonce : ℤ) (pool : List ℕ) (a m d : ℤ)
    (hpool : pool.length = 20) (hdir : d = 0 ∨ d = 1) :
    ∃ bs, encode_dex_swap_tx nonce pool a m d = some bs ∧ bs.length = 48 :=
  encode_length nonce pool a m d hpool hdir

/-- Witness for C2 at a concrete input with all three integers out of
64-bit range. -/
theorem C2_encode_fixed_width_witness :
    (List.replicate 20 (171 : ℕ)).length = 20 ∧
    ∃ bs, encode_dex_swap_tx (-7) (List.replicate 20 171) (2 ^ 64 + 5)
        (2 ^ 70) 1 = some bs ∧ bs.length = 48 :=
  ⟨by simp, C2_encode_fixed_width (-7) (List.replicate 20 171) (2 ^ 64 + 5)
    (2 ^ 70) 1 (by simp) (Or.inr rfl)⟩

/-- **C3.** `encode_dex_swap_tx` fails exactly when its precondition is
violated: it raises iff the pool address length is not 20 or the direction
is neither 0 nor 1, and succeeds otherwise. -/
theorem C3_encode_fails_iff_precondition_violated (nonce : ℤ) (pool : List ℕ)
    (a m d : ℤ) :
    encode_dex_swap_tx nonce pool a m d = none ↔
      (pool.length ≠ 20 ∨ (d ≠ 0 ∧ d ≠ 1)) := by
  unfold encode_dex_swap_tx
  split
  · rename_i h
    simp only [reduceCtorEq, false_iff]
    push_neg
    exact ⟨h.1, fun hne => h.2.resolve_left hne⟩
  · rename_i h
    simp only [true_iff]
    push_neg at h
    by_cases hlen : pool.length = 20
    · exact Or.inr (h hlen)
    · exact Or.inl hlen

/-- **C1.** Decoding the 48-byte output of `encode_dex_swap_tx` with the
independent decoder of the fixed layout yields exactly
`(nonce mod 2^64, poolAddress, amountIn mod 2^64, minAmountOut mod 2^64,
tokenDirection)`, for every integer nonce/amountIn/minAmountOut (including
negative and ≥ 2^64 values, which are wrapped, never rejected), every
20-byte pool address and direction 0 or 1; the 3 bytes at offset 45 are 0. -/
theorem C1_encode_decode_roundtrip (nonce amountIn minAmountOut : ℤ)
    (pool : List ℕ) (dir : ℤ)
    (hpool : pool.length = 20) (hdir : dir = 0 ∨ dir = 1) :
    ∃ bs, encode_dex_swap_tx nonce pool amountIn minAmountOut dir = some bs ∧
      decode_dex_swap_tx bs =
        (((nonce % 2 ^ 64 : ℤ)).toNat, pool, ((amountIn % 2 ^ 64 : ℤ)).toNat,
          ((minAmountOut % 2 ^ 64 : ℤ)).toNat, dir.toNat) ∧
      bs.drop 45 = [0, 0, 0] := by
  refine ⟨_, encode_eq_segments nonce pool amountIn minAmountOut dir hpool hdir,
    ?_⟩
  · have l8 : (u64le (mask64 nonce)).length = 8 := leBytes_length 8 _
    have l8a : (u64le (mask64 amountIn)).length = 8 := leBytes_length 8 _
    have l8m : (u64le (mask64 minAmountOut)).length = 8 := leBytes_length 8 _
    set A := u64le (mask64 nonce) with hA
    set B := u64le (mask64 amountIn) with hB
    set C := u64le (mask64 minAmountOut) with hC
    set D := [dir.toNat, 0, 0, 0] with hD
    set bs := A ++ pool ++ B ++ C ++ D with hbs
    have e1 : bs = A ++ (pool ++ (B ++ (C ++ D))) := by
      simp [hbs, List.append_assoc]
    have e2 : bs = (A ++ pool) ++ (B ++ (C ++ D)) := by
      simp [hbs, List.append_assoc]
    have e3 : bs = ((A ++ pool) ++ B) ++ (C ++ D) := by
      simp [hbs, List.append_assoc]
    have h1 : bs.take 8 = A := by
      rw [e1]; exact List.take_left' l8
    have h2 : (bs.drop 8).take 20 = pool := by
      rw [e1, List.drop_left' l8]; exact List.take_left' hpool
    have h3 : (bs.drop 28).take 8 = B := by
      rw [e2, List.drop_left' (by simp [l8, hpool])]; exact List.take_left' l8a
    have h4 : (bs.drop 36).take 8 = C := by
      rw [e3, List.drop_left' (by simp [l8, l8a, hpool])]
      exact List.take_left' l8m
    have h5 : bs.drop 44 = D := List.drop_left' (by simp [l8, l8a, l8m, hpool])
    have h6 : bs.drop 45 = [0, 0, 0] := by
      have : List.drop 1 (List.drop 44 bs) = List.drop 45 bs :=
        List.drop_drop 1 44 bs
      rw [← this, h5, hD]
      rfl
    constructor
    · unfold decode_dex_swap_tx
      rw [h1, h2, h3, h4, h5, hA, hB, hC,
        decodeLE_u64le_mask, decodeLE_u64le_mask, decodeLE_u64le_mask]
      rfl
    · exact h6

/-- Witness for C1: round-trip at a concrete input with a negative nonce
and an `amountIn` above `2^64` (both wrapped). -/
theorem C1_encode_decode_roundtrip_witness :
    (List.replicate 20 (171 : ℕ)).length = 20 ∧
    ∃ bs, encode_dex_swap_tx (-1) (List.replicate 20 171) (2 ^ 64 + 5) 3 1
        = some bs ∧
      decode_dex_swap_tx bs =
        ((((-1 : ℤ) % 2 ^ 64)).toNat, List.replicate 20 171,
          (((2 ^ 64 + 5 : ℤ) % 2 ^ 64)).toNat, (((3 : ℤ) % 2 ^ 64)).toNat,
          (1 : ℤ).toNat) ∧
      bs.drop 45 = [0, 0, 0] :=
  ⟨by simp, C1_encode_decode_roundtrip (-1) (2 ^ 64 + 5) 3
    (List.replicate 20 171) 1 (by simp) (Or.inr rfl)⟩

/-! ## Binary64 multiplication at the integer level

`int(n * c)` where `c` is a binary64 literal with significand `D`
(`c = D / 2^53`, `2^52 ≤ D < 2^53`): CPython converts `n` to binary64
(exact for `n < 2^53`), forms the correctly rounded product
(round-to-nearest, ties-to-even, on 53-bit significands) and truncates
toward zero.  For `n·D` in `[2^(52+s), 2^(53+s))` the representable
binary64 values are the multiples of `2^s / 2^53`, so the product is
`roundSig s (n·D) / 2^53` and the truncation is integer division. -/

/-- Round `v` to the nearest multiple of `2^s`, ties to the even multiple. -/
def roundSig (s v : ℕ) : ℕ :=
  if 2 * (v % 2 ^ s) < 2 ^ s then 2 ^ s * (v / 2 ^ s)
  else if 2 ^ s < 2 * (v % 2 ^ s) then 2 ^ s * (v / 2 ^ s) + 2 ^ s
  else if (v / 2 ^ s) % 2 = 0 then 2 ^ s * (v / 2 ^ s)
  else 2 ^ s * (v / 2 ^ s) + 2 ^ s

/-- Number of bits of `v` (`v.bit_length()` in Python), fuel-based so that
it reduces definitionally. -/
def bitLenAux : ℕ → ℕ → ℕ
  | 0, _ => 0
  | fuel + 1, v => if v = 0 then 0 else bitLenAux fuel (v / 2) + 1

def bitLen (v : ℕ) : ℕ := bitLenAux v v

/-- Round `v` to 53 significant bits (binary64 significand width). -/
def round53 (v : ℕ) : ℕ := roundSig (bitLen v - 53) v

/-- `int(n * (D / 2^53))` as evaluated by CPython in binary64. -/
def pyFloorMulD (n D : ℕ) : ℕ := round53 (n * D) / 2 ^ 53

theorem roundSig_spec (s v : ℕ) :
    v % 2 ^ s < 2 ^ s ∧
      (roundSig s v = 2 ^ s * (v / 2 ^ s) ∧ 2 * (v % 2 ^ s) ≤ 2 ^ s ∨
       roundSig s v = 2 ^ s * (v / 2 ^ s) + 2 ^ s ∧ 2 ^ s ≤ 2 * (v % 2 ^ s)) := by
  refine ⟨Nat.mod_lt _ (by positivity), ?_⟩
  unfold roundSig
  split_ifs with hc1 hc2 hc3
  · exact Or.inl ⟨rfl, le_of_lt hc1⟩
  · exact Or.inr ⟨rfl, le_of_lt hc2⟩
  · exact Or.inl ⟨rfl, by omega⟩
  · exact Or.inr ⟨rfl, by omega⟩

theorem roundSig_ge (s v M : ℕ) (h : M + 2 ^ s ≤ v) : M ≤ roundSig s v := by
  obtain ⟨hr, hc⟩ := roundSig_spec s v
  have hd : 2 ^ s * (v / 2 ^ s) + v % 2 ^ s = v := Nat.div_add_mod v (2 ^ s)
  set X := 2 ^ s * (v / 2 ^ s) with hX
  rcases hc with ⟨he, _⟩ | ⟨he, _⟩ <;> omega

theorem roundSig_lt (s v M : ℕ) (h : v + 2 ^ s ≤ M) : roundSig s v < M := by
  obtain ⟨hr, hc⟩ := roundSig_spec s v
  have hd : 2 ^ s * (v / 2 ^ s) + v % 2 ^ s = v := Nat.div_add_mod v (2 ^ s)
  have hP : 0 < 2 ^ s := by positivity
  set X := 2 ^ s * (v / 2 ^ s) with hX
  rcases hc with ⟨he, _⟩ | ⟨he, hup⟩ <;> omega

/-- If `v` lies in the lower half-interval above the multiple `2^s * M`,
rounding is exact (rounds down to that multiple). -/
theorem roundSig_exact_down (s v M : ℕ) (hM : 2 ^ s * M ≤ v)
    (hup : 2 * v < 2 ^ s * (2 * M + 1)) : roundSig s v = 2 ^ s * M := by
  have hP : 0 < 2 ^ s := by positivity
  have hexp : 2 ^ s * (2 * M + 1) = 2 * (2 ^ s * M) + 2 ^ s := by ring
  have hq : v / 2 ^ s = M := by
    have hcm : M * 2 ^ s = 2 ^ s * M := by ring
    have hM1 : (M + 1) * 2 ^ s = 2 ^ s * M + 2 ^ s := by ring
    exact Nat.div_eq_of_lt_le (by omega) (by omega)
  obtain ⟨hr, hc⟩ := roundSig_spec s v
  have hd : 2 ^ s * (v / 2 ^ s) + v % 2 ^ s = v := Nat.div_add_mod v (2 ^ s)
  rw [hq] at hc hd
  set X := 2 ^ s * M with hX
  rcases hc with ⟨he, _⟩ | ⟨he, hcond⟩ <;> omega

/-- If `v` lies strictly within the upper half-interval below the multiple
`2^s * M` (or equals it), rounding is exact (rounds up to that multiple). -/
theorem roundSig_exact_up (s v M : ℕ) (hle : v ≤ 2 ^ s * M)
    (hlo : 2 * (2 ^ s * M) < 2 * v + 2 ^ s) : roundSig s v = 2 ^ s * M := by
  have hP : 0 < 2 ^ s := by positivity
  rcases eq_or_lt_of_le hle with heq | hlt
  · have hq : v / 2 ^ s = M := by
      rw [heq]
      exact Nat.mul_div_cancel_left M hP
    obtain ⟨hr, hc⟩ := roundSig_spec s v
    have hd : 2 ^ s * (v / 2 ^ s) + v % 2 ^ s = v := Nat.div_add_mod v (2 ^ s)
    rw [hq] at hc hd
    set X := 2 ^ s * M with hX
    rcases hc with ⟨he, _⟩ | ⟨he, hcond⟩ <;> omega
  · have hM0 : 0 < M := by
      rcases Nat.eq_zero_or_pos M with h0 | h0
      · rw [h0] at hlt; omega
      · exact h0
    have hsub : (M - 1) * 2 ^ s + 2 ^ s = 2 ^ s * M := by
      obtain ⟨M', rfl⟩ : ∃ M', M = M' + 1 := ⟨M - 1, by omega⟩
      rw [Nat.add_sub_cancel]
      ring
    have hq : v / 2 ^ s = M - 1 := by
      refine Nat.div_eq_of_lt_le (by omega) ?_
      have : (M - 1 + 1) * 2 ^ s = (M - 1) * 2 ^ s + 2 ^ s := by ring
      omega
    obtain ⟨hr, hc⟩ := roundSig_spec s v
    have hd : 2 ^ s * (v / 2 ^ s) + v % 2 ^ s = v := Nat.div_add_mod v (2 ^ s)
    rw [hq] at hc hd
    have hcomm : 2 ^ s * (M - 1) = (M - 1) * 2 ^ s := by ring
    rw [hcomm] at hc hd
    set E := (M - 1) * 2 ^ s with hE
    set X := 2 ^ s * M with hX
    rcases hc with ⟨he, hcond⟩ | ⟨he, _⟩ <;> omega

theorem bitLenAux_zero : ∀ fuel, bitLenAux fuel 0 = 0
  | 0 => rfl
  | _ + 1 => rfl

theorem bitLenAux_eq (n : ℕ) : ∀ fuel v, 2 ^ n ≤ v → v < 2 ^ (n + 1) →
    n < fuel → bitLenAux fuel v = n + 1 := by
  induction n with
  | zero =>
    intro fuel v h1 h2 h3
    obtain ⟨f, rfl⟩ : ∃ f, fuel = f + 1 := ⟨fuel - 1, by omega⟩
    have hv : v = 1 := by
      have e0 : (2 : ℕ) ^ 0 = 1 := rfl
      have e1 : (2 : ℕ) ^ (0 + 1) = 2 := rfl
      omega
    subst hv
    simp [bitLenAux, bitLenAux_zero]
  | succ n ih =>
    intro fuel v h1 h2 h3
    obtain ⟨f, rfl⟩ : ∃ f, fuel = f + 1 := ⟨fuel - 1, by omega⟩
    have hv0 : ¬ v = 0 := by
      have : 0 < 2 ^ (n + 1) := by positivity
      omega
    have hd1 : 2 ^ n ≤ v / 2 := by
      have : 2 ^ (n + 1) = 2 * 2 ^ n := by ring
      omega
    have hd2 : v / 2 < 2 ^ (n + 1) := by
      have : 2 ^ (n + 1 + 1) = 2 * 2 ^ (n + 1) := by ring
      omega
    show (if v = 0 then 0 else bitLenAux f (v / 2) + 1) = n + 1 + 1
    rw [if_neg hv0, ih f (v / 2) hd1 hd2 (by omega)]

theorem bitLen_eq (v n : ℕ) (h1 : 2 ^ n ≤ v) (h2 : v < 2 ^ (n + 1)) :
    bitLen v = n + 1 :=
  bitLenAux_eq n v v h1 h2 (lt_of_lt_of_le (Nat.lt_two_pow n) h1)

/-- Core of the tight profile's slippage arithmetic: for the full `randint`
range, rounding `a · D⟨0.999⟩` to 53 significant bits and flooring equals
the exact rational floor `⌊999·a/1000⌋`.  The binary64 value of the literal
`0.999` is `8998192055486251 / 2^53` (so `1000·D + 8 = 999·2^53`: the
literal is `1/(125·2^53)` *below* the rational `999/1000`, and the rounding
error never reaches half an ulp). -/
theorem tight_core (a s : ℕ) (h1 : 5000000 ≤ a) (h2 : a ≤ 50000000)
    (hs1 : 23 ≤ s) (hs2 : s ≤ 26) :
    roundSig s (a * 8998192055486251) / 2 ^ 53 = 999 * a / 1000 := by
  set D : ℕ := 8998192055486251 with hD
  set v := a * D with hv
  set m := 999 * a / 1000 with hm
  set f := 999 * a % 1000 with hf
  have hmf : 1000 * m + f = 999 * a := Nat.div_add_mod (999 * a) 1000
  have hflt : f < 1000 := Nat.mod_lt _ (by norm_num)
  have key : 1000 * v + 8 * a = 1000 * (2 ^ 53 * m) + f * 2 ^ 53 := by
    have e1 : 1000 * D + 8 = 999 * 2 ^ 53 := by norm_num
    calc 1000 * v + 8 * a = a * (1000 * D + 8) := by rw [hv]; ring
    _ = a * (999 * 2 ^ 53) := by rw [e1]
    _ = (1000 * m + f) * 2 ^ 53 := by rw [hmf]; ring
    _ = 1000 * (2 ^ 53 * m) + f * 2 ^ 53 := by ring
  have hPle : (2 : ℕ) ^ s ≤ 2 ^ 26 := Nat.pow_le_pow_right (by norm_num) hs2
  have hPge : (2 : ℕ) ^ 23 ≤ 2 ^ s := Nat.pow_le_pow_right (by norm_num) hs1
  by_cases hf0 : f = 0
  · -- `999·a ≡ 0 (mod 1000)` forces `a ≡ 0 (mod 1000)`:
    -- `v` sits `a/125 < 2^22 ≤ 2^(s-1)` below the multiple `2^53·m`,
    -- so the product rounds back up to it exactly.
    have ha1000 : a % 1000 = 0 := by omega
    set k := a / 1000 with hk
    have hak : a = 1000 * k := by omega
    have hveq : v + 8 * k = 2 ^ 53 * m := by
      have h1000 : 1000 * (v + 8 * k) = 1000 * (2 ^ 53 * m) := by
        calc 1000 * (v + 8 * k) = 1000 * v + 8 * (1000 * k) := by ring
        _ = 1000 * v + 8 * a := by rw [← hak]
        _ = 1000 * (2 ^ 53 * m) := by omega
      exact Nat.eq_of_mul_eq_mul_left (by norm_num) h1000
    have hsM : 2 ^ s * (2 ^ (53 - s) * m) = 2 ^ 53 * m := by
      rw [← mul_assoc, ← pow_add]
      congr 2
      omega
    have happ := roundSig_exact_up s v (2 ^ (53 - s) * m)
      (by rw [hsM]; omega)
      (by rw [hsM]; omega)
    rw [hsM] at happ
    rw [happ]
    exact Nat.mul_div_cancel_left m (by positivity)
  · -- `f ≥ 1`: the exact product is at least `(2^53 − 8a)/1000 > 2^s` above
    -- `2^53·m` and at least `2^53/1000 > 2^s` below `2^53·(m+1)`, so the
    -- rounded product stays inside `[2^53·m, 2^53·(m+1))`.
    have hge := roundSig_ge s v (2 ^ 53 * m) (by omega)
    have hlt := roundSig_lt s v (2 ^ 53 * m + 2 ^ 53) (by omega)
    refine Nat.div_eq_of_lt_le ?_ ?_
    · have : m * 2 ^ 53 = 2 ^ 53 * m := by ring
      omega
    · have : (m + 1) * 2 ^ 53 = 2 ^ 53 * m + 2 ^ 53 := by ring
      omega

/-- Core of the large profile's slippage arithmetic: for the full `randint`
range, rounding `a · D⟨0.90⟩` to 53 significant bits and flooring equals the
exact rational floor `⌊9·a/10⌋`.  The binary64 value of the literal `0.90`
is `8106479329266893 / 2^53` (so `10·D = 9·2^53 + 2`: the literal is
`1/(5·2^53)` *above* the rational `9/10`, and the excess `2a/10` stays below
half an ulp of the product). -/
theorem large_core (a s : ℕ) (h1 : 10000000 ≤ a) (h2 : a ≤ 200000000)
    (hs1 : 24 ≤ s) (hs2 : s ≤ 28) (hvs : a * 8106479329266893 < 2 ^ (53 + s)) :
    roundSig s (a * 8106479329266893) / 2 ^ 53 = 9 * a / 10 := by
  set D : ℕ := 8106479329266893 with hD
  set v := a * D with hv
  set m := 9 * a / 10 with hm
  set f := 9 * a % 10 with hf
  have hmf : 10 * m + f = 9 * a := Nat.div_add_mod (9 * a) 10
  have hflt : f < 10 := Nat.mod_lt _ (by norm_num)
  have key : 10 * v = 10 * (2 ^ 53 * m) + f * 2 ^ 53 + 2 * a := by
    have e1 : 10 * D = 9 * 2 ^ 53 + 2 := by norm_num
    calc 10 * v = a * (10 * D) := by rw [hv]; ring
    _ = a * (9 * 2 ^ 53 + 2) := by rw [e1]
    _ = (10 * m + f) * 2 ^ 53 + 2 * a := by rw [hmf]; ring
    _ = 10 * (2 ^ 53 * m) + f * 2 ^ 53 + 2 * a := by ring
  have hPle : (2 : ℕ) ^ s ≤ 2 ^ 28 := Nat.pow_le_pow_right (by norm_num) hs2
  have hPge : (2 : ℕ) ^ 24 ≤ 2 ^ s := Nat.pow_le_pow_right (by norm_num) hs1
  -- `a < 2·2^s`, because `a·2^52 ≤ a·D = v < 2^(53+s) = (2·2^s)·2^52`.
  have ha2s : a < 2 * 2 ^ s := by
    have hD52 : (2 : ℕ) ^ 52 ≤ D := by norm_num
    have hlow : a * 2 ^ 52 ≤ v := by
      rw [hv]
      exact Nat.mul_le_mul_left a hD52
    have hsplit : (2 : ℕ) ^ (53 + s) = (2 * 2 ^ s) * 2 ^ 52 := by
      rw [pow_add]
      ring
    have : a * 2 ^ 52 < (2 * 2 ^ s) * 2 ^ 52 := by
      rw [← hsplit]
      omega
    exact Nat.lt_of_mul_lt_mul_right this
  by_cases hf0 : f = 0
  · -- `a ≡ 0 (mod 10)`: `v` sits `a/5 < 2^(s-1)` above the multiple
    -- `2^53·m`, so the product rounds back down to it exactly.
    have ha10 : a % 10 = 0 := by omega
    set k := a / 10 with hk
    have hak : a = 10 * k := by omega
    have hveq : v = 2 ^ 53 * m + 2 * k := by
      have h10 : 10 * v = 10 * (2 ^ 53 * m + 2 * k) := by
        rw [key, hf0, hak]
        ring
      exact Nat.eq_of_mul_eq_mul_left (by norm_num) h10
    have hsM : 2 ^ s * (2 ^ (53 - s) * m) = 2 ^ 53 * m := by
      rw [← mul_assoc, ← pow_add]
      congr 2
      omega
    have hkP : 4 * k < 2 ^ s := by omega
    have hexp : 2 ^ s * (2 * (2 ^ (53 - s) * m) + 1)
        = 2 * (2 ^ s * (2 ^ (53 - s) * m)) + 2 ^ s := by ring
    have happ := roundSig_exact_down s v (2 ^ (53 - s) * m)
      (by rw [hsM]; omega)
      (by rw [hexp, hsM]; omega)
    rw [hsM] at happ
    rw [happ]
    exact Nat.mul_div_cancel_left m (by positivity)
  · -- `f ≥ 1`: the exact product is more than `2^s` inside the interval
    -- `[2^53·m, 2^53·(m+1))` on both sides, so rounding stays inside it.
    have hge := roundSig_ge s v (2 ^ 53 * m) (by omega)
    have hlt := roundSig_lt s v (2 ^ 53 * m + 2 ^ 53) (by omega)
    refine Nat.div_eq_of_lt_le ?_ ?_
    · have : m * 2 ^ 53 = 2 ^ 53 * m := by ring
      omega
    · have : (m + 1) * 2 ^ 53 = 2 ^ 53 * m + 2 ^ 53 := by ring
      omega

/-- `int(a * 0.999)` equals `⌊999·a/1000⌋` throughout the tight profile's
`randint` range. -/
theorem pyFloorMulD_tight (a : ℕ) (h1 : 5000000 ≤ a) (h2 : a ≤ 50000000) :
    pyFloorMulD a 8998192055486251 = 999 * a / 1000 := by
  have hlo : (2 : ℕ) ^ 75 ≤ a * 8998192055486251 :=
    le_trans (by norm_num) (Nat.mul_le_mul_right _ h1)
  have hhi : a * 8998192055486251 < 2 ^ 79 :=
    lt_of_le_of_lt (Nat.mul_le_mul_right _ h2) (by norm_num)
  unfold pyFloorMulD round53
  rcases Nat.lt_or_ge (a * 8998192055486251) (2 ^ 76) with hc | hc
  · rw [bitLen_eq _ 75 hlo hc]
    exact tight_core a (75 + 1 - 53) h1 h2 (by norm_num) (by norm_num)
  · rcases Nat.lt_or_ge (a * 8998192055486251) (2 ^ 77) with hd | hd
    · rw [bitLen_eq _ 76 hc hd]
      exact tight_core a (76 + 1 - 53) h1 h2 (by norm_num) (by norm_num)
    · rcases Nat.lt_or_ge (a * 8998192055486251) (2 ^ 78) with he | he
      · rw [bitLen_eq _ 77 hd he]
        exact tight_core a (77 + 1 - 53) h1 h2 (by norm_num) (by norm_num)
      · rw [bitLen_eq _ 78 he hhi]
        exact tight_core a (78 + 1 - 53) h1 h2 (by norm_num) (by norm_num)

/-- `int(a * 0.90)` equals `⌊9·a/10⌋` throughout the large profile's
`randint` range. -/
theorem pyFloorMulD_large (a : ℕ) (h1 : 10000000 ≤ a) (h2 : a ≤ 200000000) :
    pyFloorMulD a 8106479329266893 = 9 * a / 10 := by
  have hlo : (2 : ℕ) ^ 76 ≤ a * 8106479329266893 :=
    le_trans (by norm_num) (Nat.mul_le_mul_right _ h1)
  have hhi : a * 8106479329266893 < 2 ^ 81 :=
    lt_of_le_of_lt (Nat.mul_le_mul_right _ h2) (by norm_num)
  unfold pyFloorMulD round53
  rcases Nat.lt_or_ge (a * 8106479329266893) (2 ^ 77) with hc | hc
  · rw [bitLen_eq _ 76 hlo hc]
    exact large_core a (76 + 1 - 53) h1 h2 (by norm_num) (by norm_num)
      (by simpa using hc)
  · rcases Nat.lt_or_ge (a * 8106479329266893) (2 ^ 78) with hd | hd
    · rw [bitLen_eq _ 77 hc hd]
      exact large_core a (77 + 1 - 53) h1 h2 (by norm_num) (by norm_num)
        (by simpa using hd)
    · rcases Nat.lt_or_ge (a * 8106479329266893) (2 ^ 79) with he | he
      · rw [bitLen_eq _ 78 hd he]
        exact large_core a (78 + 1 - 53) h1 h2 (by norm_num) (by norm_num)
          (by simpa using he)
      · rcases Nat.lt_or_ge (a * 8106479329266893) (2 ^ 80) with hg | hg
        · rw [bitLen_eq _ 79 he hg]
          exact large_core a (79 + 1 - 53) h1 h2 (by norm_num) (by norm_num)
            (by simpa using hg)
        · rw [bitLen_eq _ 80 hg hhi]
          exact large_core a (80 + 1 - 53) h1 h2 (by norm_num) (by norm_num)
            (by simpa using hhi)

/-! ## Scenario generators (gen_traffic.py lines 62–102)

The two pool address constants come from
`bytes.fromhex("A0b86991c6218b36c1d19D4a2e9Eb0cE3606eB48"[:40].ljust(40, "0"))`
(the hex strings are already 40 characters, so `[:40]` and `ljust` are
identities) — 20 raw bytes each.

`random` is embedded as an abstract draw stream `g : ℕ → ℕ` with a cursor
`k` (the number of draws made so far); `random.randint(lo, hi)` consumes
one draw and returns a value in `[lo, hi]`, and `random.choice` on a
2-element list consumes one draw selecting an index in `{0, 1}`.  This
captures exactly the properties the script relies on: the value range of
each draw, and the fixed order in which the single seeded generator is
consumed. -/

def POOL_ADDR_ETH_USDC : List ℕ :=
  [0xA0, 0xb8, 0x69, 0x91, 0xc6, 0x21, 0x8b, 0x36, 0xc1, 0xd1,
   0x9D, 0x4a, 0x2e, 0x9E, 0xb0, 0xcE, 0x36, 0x06, 0xeB, 0x48]

def POOL_ADDR_WBTC_ETH : List ℕ :=
  [0xcB, 0xCd, 0xF9, 0x62, 0x6b, 0xC0, 0x3E, 0x24, 0xf7, 0x79,
   0x43, 0x41, 0x78, 0xA7, 0x3a, 0x0B, 0x4b, 0xad, 0x62, 0xeD]

/-- `random.randint(lo, hi)`: one draw, result in `[lo, hi]`. -/
def pyRandint (lo hi : ℕ) (g : ℕ → ℕ) (k : ℕ) : ℕ × ℕ :=
  (lo + g k % (hi + 1 - lo), k + 1)

/-- `random.choice([x, y])`: one draw selecting one of the two elements. -/
def pyChoice2 (x y : List ℕ) (g : ℕ → ℕ) (k : ℕ) : List ℕ × ℕ :=
  (if g k % 2 = 0 then x else y, k + 1)

/-- The `DexSwapTx` domain event as passed to `encode_dex_swap_tx`. -/
structure DexSwapTx where
  nonce : ℤ
  pool_address : List ℕ
  amount_in : ℤ
  min_amount_out : ℤ
  token_direction : ℤ

def encodeEvent (e : DexSwapTx) : Option (List ℕ) :=
  encode_dex_swap_tx e.nonce e.pool_address e.amount_in e.min_amount_out
    e.token_direction

/-- `make_small_swap` (lines 66–74): `amount_in = randint(1, 999_999)`,
`min_amount_out = 1`, direction `randint(0, 1)`; draws in that order. -/
def make_small_swap_event (nonce : ℕ) (g : ℕ → ℕ) (k : ℕ) : DexSwapTx × ℕ :=
  let (a, k1) := pyRandint 1 999999 g k
  let (d, k2) := pyRandint 0 1 g k1
  (⟨nonce, POOL_ADDR_ETH_USDC, a, 1, d⟩, k2)

/-- `make_large_swap` (lines 77–88): `amount_in = randint(10^7, 2·10^8)`,
`min_out = int(amount_in * 0.90)`, pool chosen from the fixed 2-element
set, direction `randint(0, 1)`; draws in that order. -/
def make_large_swap_event (nonce : ℕ) (g : ℕ → ℕ) (k : ℕ) : DexSwapTx × ℕ :=
  let (a, k1) := pyRandint 10000000 200000000 g k
  let min_out := pyFloorMulD a 8106479329266893
  let (pool, k2) := pyChoice2 POOL_ADDR_ETH_USDC POOL_ADDR_WBTC_ETH g k1
  let (d, k3) := pyRandint 0 1 g k2
  (⟨nonce, pool, a, min_out, d⟩, k3)

/-- `make_tight_slippage_swap` (lines 91–102): `amount_in =
randint(5·10^6, 5·10^7)`, `min_out = int(amount_in * 0.999)`, fixed pool,
direction 0; a single draw. -/
def make_tight_slippage_swap_event (nonce : ℕ) (g : ℕ → ℕ) (k : ℕ) :
    DexSwapTx × ℕ :=
  let (a, k1) := pyRandint 5000000 50000000 g k
  let min_out := pyFloorMulD a 8998192055486251
  (⟨nonce, POOL_ADDR_ETH_USDC, a, min_out, 0⟩, k1)

def make_small_swap (nonce : ℕ) (g : ℕ → ℕ) (k : ℕ) : Option (List ℕ) × ℕ :=
  let (e, k1) := make_small_swap_event nonce g k
  (encodeEvent e, k1)

def make_large_swap (nonce : ℕ) (g : ℕ → ℕ) (k : ℕ) : Option (List ℕ) × ℕ :=
  let (e, k1) := make_large_swap_event nonce g k
  (encodeEvent e, k1)

def make_tight_slippage_swap (nonce : ℕ) (g : ℕ → ℕ) (k : ℕ) :
    Option (List ℕ) × ℕ :=
  let (e, k1) := make_tight_slippage_swap_event nonce g k
  (encodeEvent e, k1)

/-! ## Driver scenario dispatch (gen_traffic.py lines 204–211)

```python
if args.mode == "large":   payload = make_large_swap(nonce=i)
elif args.mode == "small": payload = make_small_swap(nonce=i)
elif args.mode == "tight": payload = make_tight_slippage_swap(nonce=i)
else:  # mixed
    r = i % 4
    if r == 0:   payload = make_small_swap(nonce=i)
    elif r == 1: payload = make_tight_slippage_swap(nonce=i)
    else:        payload = make_large_swap(nonce=i)
```
-/

inductive Mode where
  | large
  | small
  | tight
  | mixed
deriving DecidableEq

inductive ScenarioClass where
  | small
  | tight
  | large
deriving DecidableEq

/-- The scenario class of sequence index `i` in mixed mode. -/
def mixedScenarioClass (i : ℕ) : ScenarioClass :=
  if i % 4 = 0 then ScenarioClass.small
  else if i % 4 = 1 then ScenarioClass.tight
  else ScenarioClass.large

/-- The scenario class the driver picks for record `i` under each mode. -/
def scenarioFor (mode : Mode) (i : ℕ) : ScenarioClass :=
  match mode with
  | Mode.large => ScenarioClass.large
  | Mode.small => ScenarioClass.small
  | Mode.tight => ScenarioClass.tight
  | Mode.mixed => mixedScenarioClass i

def runScenario (c : ScenarioClass) (i : ℕ) (g : ℕ → ℕ) (k : ℕ) :
    Option (List ℕ) × ℕ :=
  match c with
  | ScenarioClass.small => make_small_swap i g k
  | ScenarioClass.tight => make_tight_slippage_swap i g k
  | ScenarioClass.large => make_large_swap i g k

/-! ## Frame builder `ethernet_ip_udp_frame` (gen_traffic.py lines 121–157)

Callers never override the defaults, so the fixed addressing values are
inlined: `src_ip = 192.168.69.1`, `dst_ip = 192.168.69.2` (via
`socket.inet_aton`), `src_port = 54321`, `dst_port = 8080`,
`src_mac = 00:11:22:33:44:55`, `dst_mac = 02:00:00:00:00:01`.  The IPv4
identification field is `random.randint(1, 65535)`, taken here as the
parameter `ident`.  `struct.pack ">HHHH"` / `">BBHHHBBH4s4s"` raise
`struct.error` when a 16-bit field value is `≥ 2^16`; the only values not
bounded a priori are `udp_len = 8 + len(payload)` and
`ip_len = 20 + udp_len`. -/

/-- `dst_mac + src_mac + ethertype 0x0800`: the 14-byte Ethernet header. -/
def eth_header : List ℕ :=
  [0x02, 0x00, 0x00, 0x00, 0x00, 0x01] ++
  [0x00, 0x11, 0x22, 0x33, 0x44, 0x55] ++ [0x08, 0x00]

/-- `struct.pack ">BBHHHBBH4s4s"` with version/IHL `0x45`, DSCP 0, total
length, identification, flags `0x4000`, TTL 64, protocol 17, checksum 0,
and the two fixed addresses. -/
def ipv4_header (ident total_length : ℕ) : List ℕ :=
  [0x45, 0x00] ++ beBytes 2 total_length ++ beBytes 2 ident ++
  beBytes 2 0x4000 ++ [64, 17] ++ beBytes 2 0 ++
  [192, 168, 69, 1] ++ [192, 168, 69, 2]

/-- `struct.pack ">HHHH"` of source port, destination port, UDP length and
zero checksum. -/
def udp_header (udp_len : ℕ) : List ℕ :=
  beBytes 2 54321 ++ beBytes 2 8080 ++ beBytes 2 udp_len ++ beBytes 2 0

def ethernet_ip_udp_frame (ident : ℕ) (payload : List ℕ) : Option (List ℕ) :=
  if 8 + payload.length < 65536 ∧ 20 + (8 + payload.length) < 65536 ∧
      ident < 65536 then
    some (eth_header ++ ipv4_header ident (20 + (8 + payload.length)) ++
      udp_header (8 + payload.length) ++ payload)
  else none

/-! ## pcap writing (gen_traffic.py lines 107–170) -/

/-- `struct.pack "<IHHiIII"` of the pcap global header constants (the `i`
field, thiszone, is 0, so its bytes coincide with an unsigned field). -/
def PCAP_GLOBAL_HEADER : List ℕ :=
  u32le 0xA1B2C3D4 ++ u16le 2 ++ u16le 4 ++ u32le 0 ++ u32le 0 ++
  u32le 65535 ++ u32le 1

def pcap_ts_sec (base_ts_sec i : ℕ) : ℕ := base_ts_sec + i / 1000

def pcap_ts_usec (i : ℕ) : ℕ := i % 1000 * 1000

/-- One `struct.pack "<IIII"` record header followed by the frame bytes;
`struct.error` (`none`) when a field exceeds 32 bits.  `ts_usec` is at most
999000, so only `ts_sec` and the two lengths need the check. -/
def pcap_record (base_ts_sec i : ℕ) (frame : List ℕ) : Option (List ℕ) :=
  if pcap_ts_sec base_ts_sec i < 2 ^ 32 ∧ frame.length < 2 ^ 32 then
    some (u32le (pcap_ts_sec base_ts_sec i) ++ u32le (pcap_ts_usec i) ++
      u32le frame.length ++ u32le frame.length ++ frame)
  else none

def pcap_records (base_ts_sec : ℕ) : ℕ → List (List ℕ) → Option (List ℕ)
  | _, [] => some []
  | i, frame :: rest =>
    match pcap_record base_ts_sec i frame, pcap_records base_ts_sec (i + 1) rest with
    | some hd, some tl => some (hd ++ tl)
    | _, _ => none

/-- `write_pcap(filename, frames, base_ts_sec=1_700_000_000)`: the byte
content written to the file (global header, then per-record header and
frame bytes for each frame, in order, enumerated from 0). -/
def write_pcap (frames : List (List ℕ)) (base_ts_sec : ℕ) : Option (List ℕ) :=
  (pcap_records base_ts_sec 0 frames).map (fun recs => PCAP_GLOBAL_HEADER ++ recs)

/-! ## Driver loop `main` (gen_traffic.py lines 194–216)

`random.seed(args.seed)` fixes the draw stream `g`; the loop then builds
one payload per index (asserting its length is 48), wraps it in a frame
(consuming one more draw for the IPv4 identification), and finally writes
all frames to the pcap. -/

def buildFrame (payload : List ℕ) (g : ℕ → ℕ) (k : ℕ) :
    Option (List ℕ) × ℕ :=
  (ethernet_ip_udp_frame (pyRandint 1 65535 g k).1 payload,
   (pyRandint 1 65535 g k).2)

/-- The generation loop from index `i`, `n` iterations remaining, draw
cursor `k`: the produced frames (or `none` if a payload assert or a pack
raised) and the final cursor. -/
def genFrames (mode : Mode) (g : ℕ → ℕ) : ℕ → ℕ → ℕ → Option (List (List ℕ)) × ℕ
  | _, 0, k => (some [], k)
  | i, n + 1, k =>
    let sc := runScenario (scenarioFor mode i) i g k
    match sc.1 with
    | none => (none, sc.2)
    | some payload =>
      if payload.length = 48 then
        let bf := buildFrame payload g sc.2
        match bf.1 with
        | none => (none, bf.2)
        | some frame =>
          let rest := genFrames mode g (i + 1) n bf.2
          (rest.1.map (fun fs => frame :: fs), rest.2)
      else (none, sc.2)

/-- `main(count, mode, seed)`: the full byte content of the output file,
as a function of the seeded draw stream `g`. -/
def mainOutput (count : ℕ) (mode : Mode) (g : ℕ → ℕ) : Option (List ℕ) :=
  match (genFrames mode g 0 count 0).1 with
  | none => none
  | some frames => write_pcap frames 1700000000

/-- **C4.** The pipeline is deterministic in `(count, mode, seed)`:
`random.seed(seed)` fixes the entire draw stream, and the pipeline output
is a function of the count, the mode and that stream alone, so two runs
with identical `(count, mode, seed)` — i.e. with draw streams that agree
on every draw — produce byte-identical output files. -/
theorem C4_reproducible_output (count : ℕ) (mode : Mode) (g g2 : ℕ → ℕ)
    (h : ∀ k, g k = g2 k) :
    mainOutput count mode g = mainOutput count mode g2 := by
  have hg : g = g2 := funext h
  rw [hg]

/-- Witness for C4 at a concrete count, mode and stream. -/
theorem C4_reproducible_output_witness :
    mainOutput 2 Mode.mixed (fun k => k * 7 + 3) =
      mainOutput 2 Mode.mixed (fun k => k * 7 + 3) :=
  C4_reproducible_output 2 Mode.mixed (fun k => k * 7 + 3)
    (fun k => k * 7 + 3) (fun _ => rfl)

/-- **C5.** In mixed mode the scenario class at sequence index `i` is a
function of `i mod 4`: small at 0, tight at 1, large at 2 and 3; for
count 8 the classes by index are exactly
`[small, tight, large, large, small, tight, large, large]`. -/
theorem C5_mixed_mode_distribution (i : ℕ) :
    (i % 4 = 0 → scenarioFor Mode.mixed i = ScenarioClass.small) ∧
    (i % 4 = 1 → scenarioFor Mode.mixed i = ScenarioClass.tight) ∧
    (i % 4 = 2 ∨ i % 4 = 3 → scenarioFor Mode.mixed i = ScenarioClass.large) ∧
    (List.range 8).map (scenarioFor Mode.mixed) =
      [ScenarioClass.small, ScenarioClass.tight, ScenarioClass.large,
       ScenarioClass.large, ScenarioClass.small, ScenarioClass.tight,
       ScenarioClass.large, ScenarioClass.large] := by
  refine ⟨?_, ?_, ?_, by decide⟩
  · intro h
    simp [scenarioFor, mixedScenarioClass, h]
  · intro h
    simp [scenarioFor, mixedScenarioClass, h]
  · intro h
    rcases h with h | h <;> simp [scenarioFor, mixedScenarioClass, h]

/-- Witness for C5 at index 6 (`6 mod 4 = 2`, a large slot). -/
theorem C5_mixed_mode_distribution_witness :
    scenarioFor Mode.mixed 6 = ScenarioClass.large ∧
    (List.range 8).map (scenarioFor Mode.mixed) =
      [ScenarioClass.small, ScenarioClass.tight, ScenarioClass.large,
       ScenarioClass.large, ScenarioClass.small, ScenarioClass.tight,
       ScenarioClass.large, ScenarioClass.large] :=
  ⟨(C5_mixed_mode_distribution 6).2.2.1 (Or.inl rfl),
   (C5_mixed_mode_distribution 6).2.2.2⟩

/-- **C8.** The pcap global header is exactly 24 bytes and encodes, in
little-endian order, magic `0xA1B2C3D4` (hence the canonical byte pattern
`D4 C3 B2 A1` on disk), version 2.4, thiszone 0, sigfigs 0, snaplen 65535
and network 1 (Ethernet). -/
theorem C8_pcap_global_header :
    PCAP_GLOBAL_HEADER.length = 24 ∧
    PCAP_GLOBAL_HEADER =
      [0xD4, 0xC3, 0xB2, 0xA1, 0x02, 0x00, 0x04, 0x00,
       0x00, 0x00, 0x00, 0x00, 0x00, 0x00, 0x00, 0x00,
       0xFF, 0xFF, 0x00, 0x00, 0x01, 0x00, 0x00, 0x00] ∧
    decodeLE (PCAP_GLOBAL_HEADER.take 4) = 0xA1B2C3D4 ∧
    decodeLE ((PCAP_GLOBAL_HEADER.drop 4).take 2) = 2 ∧
    decodeLE ((PCAP_GLOBAL_HEADER.drop 6).take 2) = 4 ∧
    decodeLE ((PCAP_GLOBAL_HEADER.drop 8).take 4) = 0 ∧
    decodeLE ((PCAP_GLOBAL_HEADER.drop 12).take 4) = 0 ∧
    decodeLE ((PCAP_GLOBAL_HEADER.drop 16).take 4) = 65535 ∧
    decodeLE ((PCAP_GLOBAL_HEADER.drop 20).take 4) = 1 := by
  decide

theorem beBytes_length (k x : ℕ) : (beBytes k x).length = k := by
  simp [beBytes, leBytes_length]

/-- **C6 (amended).** For every identification value and every payload
whose IPv4 total length fits 16 bits (length ≤ 65507), the produced frame
is the 14-byte Ethernet header, the 20-byte IPv4 header, the 8-byte UDP
header and the payload (total `42 + len(payload)`), with the IPv4
total-length field at offset 16 equal to `20 + 8 + len(payload)` and the
UDP length field at offset 38 equal to `8 + len(payload)`, both
big-endian. -/
theorem C6_frame_layout (ident : ℕ) (payload : List ℕ)
    (hident : ident < 65536) (hlen : payload.length ≤ 65507) :
    ∃ fr, ethernet_ip_udp_frame ident payload = some fr ∧
      eth_header.length = 14 ∧
      (ipv4_header ident (20 + (8 + payload.length))).length = 20 ∧
      (udp_header (8 + payload.length)).length = 8 ∧
      fr = eth_header ++ ipv4_header ident (20 + (8 + payload.length)) ++
        udp_header (8 + payload.length) ++ payload ∧
      fr.length = 42 + payload.length ∧
      (fr.drop 16).take 2 = beBytes 2 (20 + 8 + payload.length) ∧
      (fr.drop 38).take 2 = beBytes 2 (8 + payload.length) := by
  have hcond : 8 + payload.length < 65536 ∧ 20 + (8 + payload.length) < 65536 ∧
      ident < 65536 := by omega
  refine ⟨_, by rw [ethernet_ip_udp_frame, if_pos hcond], rfl, ?_, ?_, rfl,
    ?_, ?_, ?_⟩
  · simp [ipv4_header, beBytes_length]
  · simp [udp_header, beBytes_length]
  · simp [eth_header, ipv4_header, udp_header, beBytes_length,
      List.length_append]
    omega
  · -- IPv4 total-length field: bytes 16–17
    have hassoc : eth_header ++ ipv4_header ident (20 + (8 + payload.length)) ++
        udp_header (8 + payload.length) ++ payload =
        (eth_header ++ [0x45, 0x00]) ++
          (beBytes 2 (20 + (8 + payload.length)) ++
            (beBytes 2 ident ++ beBytes 2 0x4000 ++ [64, 17] ++ beBytes 2 0 ++
              [192, 168, 69, 1] ++ [192, 168, 69, 2] ++
              udp_header (8 + payload.length) ++ payload)) := by
      simp [eth_header, ipv4_header, List.append_assoc]
    have h16 : (eth_header ++ [0x45, 0x00]).length = 16 := by decide
    have h28 : 20 + 8 + payload.length = 20 + (8 + payload.length) := by omega
    rw [hassoc, List.drop_left' h16, List.take_left' (beBytes_length 2 _), h28]
  · -- UDP length field: bytes 38–39
    have hassoc : eth_header ++ ipv4_header ident (20 + (8 + payload.length)) ++
        udp_header (8 + payload.length) ++ payload =
        ((eth_header ++ ipv4_header ident (20 + (8 + payload.length))) ++
          (beBytes 2 54321 ++ beBytes 2 8080)) ++
          (beBytes 2 (8 + payload.length) ++ (beBytes 2 0 ++ payload)) := by
      simp [udp_header, List.append_assoc]
    have h38 : ((eth_header ++ ipv4_header ident (20 + (8 + payload.length))) ++
        (beBytes 2 54321 ++ beBytes 2 8080)).length = 38 := by
      simp [eth_header, ipv4_header, beBytes_length, List.length_append]
    rw [hassoc, List.drop_left' h38, List.take_left' (beBytes_length 2 _)]

/-- Counterexample to C6 as stated (for *every* payload): with a 65508-byte
payload the IPv4 total length would be 65536, which does not fit in the
16-bit header field, and `struct.pack ">BBHHHBBH4s4s"` raises
`struct.error` — no frame is produced. -/
theorem C6_frame_layout_cex :
    ethernet_ip_udp_frame 1 (List.replicate 65508 0) = none := by
  have hlen : (List.replicate 65508 (0 : ℕ)).length = 65508 :=
    List.length_replicate 65508 0
  rw [ethernet_ip_udp_frame, if_neg]
  rw [hlen]
  omega

/-- Witness for C6 at a 48-byte payload. -/
theorem C6_frame_layout_witness :
    (1 : ℕ) < 65536 ∧ (List.replicate 48 (0 : ℕ)).length ≤ 65507 ∧
    (∃ fr, ethernet_ip_udp_frame 1 (List.replicate 48 0) = some fr ∧
      eth_header.length = 14 ∧
      (ipv4_header 1 (20 + (8 + (List.replicate 48 (0 : ℕ)).length))).length = 20 ∧
      (udp_header (8 + (List.replicate 48 (0 : ℕ)).length)).length = 8 ∧
      fr = eth_header ++
        ipv4_header 1 (20 + (8 + (List.replicate 48 (0 : ℕ)).length)) ++
        udp_header (8 + (List.replicate 48 (0 : ℕ)).length) ++
        List.replicate 48 0 ∧
      fr.length = 42 + (List.replicate 48 (0 : ℕ)).length ∧
      (fr.drop 16).take 2 = beBytes 2 (20 + 8 + (List.replicate 48 (0 : ℕ)).length) ∧
      (fr.drop 38).take 2 = beBytes 2 (8 + (List.replicate 48 (0 : ℕ)).length)) :=
  ⟨by decide, by simp, C6_frame_layout 1 (List.replicate 48 0) (by decide)
    (by simp)⟩

/-- **C7 (amended).** Whenever the u32 fields fit (`base + i div 1000 <
2^32` and `len(frame) < 2^32`), the writer emits for the frame at index
`i` a 16-byte record header: the little-endian packing of
`(base + i div 1000, (i mod 1000)·1000, len(frame), len(frame))`, followed
by the frame itself; captured length always equals original length, the
`(ts_sec, ts_usec)` sequence is monotonically non-decreasing in the index,
and between indices 999 and 1000 the seconds advance by exactly 1 while
the microseconds reset from 999000 to 0. -/
theorem C7_pcap_record_headers (base i j : ℕ) (frame : List ℕ)
    (h1 : pcap_ts_sec base i < 2 ^ 32) (h2 : frame.length < 2 ^ 32)
    (hij : i ≤ j) :
    pcap_record base i frame =
      some (u32le (base + i / 1000) ++ u32le (i % 1000 * 1000) ++
        u32le frame.length ++ u32le frame.length ++ frame) ∧
    (u32le (base + i / 1000) ++ u32le (i % 1000 * 1000) ++
      u32le frame.length ++ u32le frame.length).length = 16 ∧
    (pcap_ts_sec base i < pcap_ts_sec base j ∨
      (pcap_ts_sec base i = pcap_ts_sec base j ∧
        pcap_ts_usec i ≤ pcap_ts_usec j)) ∧
    pcap_ts_sec base 1000 = pcap_ts_sec base 999 + 1 ∧
    pcap_ts_usec 999 = 999000 ∧ pcap_ts_usec 1000 = 0 := by
  refine ⟨?_, ?_, ?_, ?_, by decide, by decide⟩
  · rw [pcap_record, if_pos ⟨h1, h2⟩]
    rfl
  · simp [u32le, leBytes_length, List.length_append]
  · unfold pcap_ts_sec pcap_ts_usec
    omega
  · unfold pcap_ts_sec
    omega

/-- Counterexample to C7 as stated (for *every* base timestamp): with
`base = 2^32` the seconds field does not fit in the 32-bit header field,
`struct.pack "<IIII"` raises `struct.error`, and nothing is written. -/
theorem C7_pcap_record_headers_cex :
    write_pcap [[]] (2 ^ 32) = none := by
  rw [write_pcap, pcap_records, pcap_record, if_neg]
  · rfl
  · rw [pcap_ts_sec]
    omega

/-- Witness for C7 at the 999 → 1000 boundary with a 1-byte frame. -/
theorem C7_pcap_record_headers_witness :
    pcap_ts_sec 1700000000 999 < 2 ^ 32 ∧ ([7] : List ℕ).length < 2 ^ 32 ∧
    (pcap_record 1700000000 999 [7] =
      some (u32le (1700000000 + 999 / 1000) ++ u32le (999 % 1000 * 1000) ++
        u32le ([7] : List ℕ).length ++ u32le ([7] : List ℕ).length ++ [7]) ∧
    (u32le (1700000000 + 999 / 1000) ++ u32le (999 % 1000 * 1000) ++
      u32le ([7] : List ℕ).length ++ u32le ([7] : List ℕ).length).length = 16 ∧
    (pcap_ts_sec 1700000000 999 < pcap_ts_sec 1700000000 1000 ∨
      (pcap_ts_sec 1700000000 999 = pcap_ts_sec 1700000000 1000 ∧
        pcap_ts_usec 999 ≤ pcap_ts_usec 1000)) ∧
    pcap_ts_sec 1700000000 1000 = pcap_ts_sec 1700000000 999 + 1 ∧
    pcap_ts_usec 999 = 999000 ∧ pcap_ts_usec 1000 = 0) :=
  ⟨by decide, by decide,
   C7_pcap_record_headers 1700000000 999 1000 [7] (by decide) (by decide)
     (by decide)⟩

/-- **C9.** Every event produced by the large profile has `amountIn` in
`[10^7, 2·10^8]` and `minAmountOut = ⌊0.90 · amountIn⌋` (the exact
mathematical floor of the rational product — the binary64 evaluation
`int(amount_in * 0.90)` never deviates from it on this range); every event
produced by the tight profile has `amountIn` in `[5·10^6, 5·10^7]`,
`minAmountOut = ⌊0.999 · amountIn⌋` and `tokenDirection = 0`. -/
theorem C9_profile_slippage (g : ℕ → ℕ) (k i : ℕ) :
    (∃ a : ℕ, 10000000 ≤ a ∧ a ≤ 200000000 ∧
      (make_large_swap_event i g k).1.amount_in = (a : ℤ) ∧
      (make_large_swap_event i g k).1.min_amount_out =
        ((9 * a / 10 : ℕ) : ℤ)) ∧
    (∃ a : ℕ, 5000000 ≤ a ∧ a ≤ 50000000 ∧
      (make_tight_slippage_swap_event i g k).1.amount_in = (a : ℤ) ∧
      (make_tight_slippage_swap_event i g k).1.min_amount_out =
        ((999 * a / 1000 : ℕ) : ℤ) ∧
      (make_tight_slippage_swap_event i g k).1.token_direction = 0) := by
  constructor
  · have hmod : g k % 190000001 < 190000001 := Nat.mod_lt _ (by norm_num)
    have hb1 : 10000000 ≤ 10000000 + g k % 190000001 := Nat.le_add_right _ _
    have hb2 : 10000000 + g k % 190000001 ≤ 200000000 := by omega
    refine ⟨10000000 + g k % 190000001, hb1, hb2, rfl, ?_⟩
    have hmin : (make_large_swap_event i g k).1.min_amount_out =
        ((pyFloorMulD (10000000 + g k % 190000001) 8106479329266893 : ℕ) : ℤ) :=
      rfl
    rw [hmin, pyFloorMulD_large _ hb1 hb2]
  · have hmod : g k % 45000001 < 45000001 := Nat.mod_lt _ (by norm_num)
    have hb1 : 5000000 ≤ 5000000 + g k % 45000001 := Nat.le_add_right _ _
    have hb2 : 5000000 + g k % 45000001 ≤ 50000000 := by omega
    refine ⟨5000000 + g k % 45000001, hb1, hb2, rfl, ?_, rfl⟩
    have hmin : (make_tight_slippage_swap_event i g k).1.min_amount_out =
        ((pyFloorMulD (5000000 + g k % 45000001) 8998192055486251 : ℕ) : ℤ) :=
      rfl
    rw [hmin, pyFloorMulD_tight _ hb1 hb2]

/-- A `randint(0, 1)` draw, as the direction argument, is 0 or 1. -/
theorem dirInt01 (x : ℕ) :
    ((0 + x % 2 : ℕ) : ℤ) = 0 ∨ ((0 + x % 2 : ℕ) : ℤ) = 1 := by
  rcases Nat.mod_two_eq_zero_or_one x with h | h <;> simp [h]

/-- Every scenario constructor satisfies the codec's precondition, so the
encode succeeds with a 48-byte payload. -/
theorem runScenario_48 (c : ScenarioClass) (i : ℕ) (g : ℕ → ℕ) (k : ℕ) :
    ∃ bs, (runScenario c i g k).1 = some bs ∧ bs.length = 48 := by
  cases c
  · exact encode_length _ POOL_ADDR_ETH_USDC _ _ _ (by rfl)
      (dirInt01 (g (k + 1)))
  · exact encode_length _ POOL_ADDR_ETH_USDC _ _ _ (by rfl) (Or.inl rfl)
  · have hpool : (if g (k + 1) % 2 = 0 then POOL_ADDR_ETH_USDC
        else POOL_ADDR_WBTC_ETH).length = 20 := by
      split <;> rfl
    exact encode_length _ _ _ _ _ hpool (dirInt01 (g (k + 2)))

/-- The generation loop never hits a failing assert or pack: it always
produces a frame list. -/
theorem genFrames_isSome (mode : Mode) (g : ℕ → ℕ) :
    ∀ count i k, ((genFrames mode g i count k).1).isSome := by
  intro count
  induction count with
  | zero => intro i k; rfl
  | succ n ih =>
    intro i k
    obtain ⟨bs, hbs, hlen⟩ := runScenario_48 (scenarioFor mode i) i g k
    have hident : (pyRandint 1 65535 g
        ((runScenario (scenarioFor mode i) i g k).2)).1 < 65536 := by
      have hm : g ((runScenario (scenarioFor mode i) i g k).2) % 65535
          < 65535 := Nat.mod_lt _ (by norm_num)
      show 1 + g ((runScenario (scenarioFor mode i) i g k).2) % (65535 + 1 - 1)
          < 65536
      omega
    obtain ⟨fr, hfr⟩ : ∃ fr,
        (buildFrame bs g ((runScenario (scenarioFor mode i) i g k).2)).1
          = some fr := by
      show ∃ fr, ethernet_ip_udp_frame _ bs = some fr
      rw [ethernet_ip_udp_frame, if_pos ⟨by omega, by omega, hident⟩]
      exact ⟨_, rfl⟩
    have hrest := ih (i + 1)
      ((buildFrame bs g ((runScenario (scenarioFor mode i) i g k).2)).2)
    obtain ⟨fs, hfs⟩ := Option.isSome_iff_exists.mp hrest
    simp only [genFrames, hbs, hlen, if_pos, hfr, hfs]
    rfl

/-- **C10.** Both pool address constants are exactly 20 bytes, every
direction the scenario constructors pass is 0 or 1, so every scenario the
driver dispatches encodes successfully into exactly 48 bytes — the assert
branches inside `encode_dex_swap_tx` and the 48-byte assert in `main` are
unreachable, and the whole generation loop always succeeds. -/
theorem C10_constructors_satisfy_codec_precondition :
    POOL_ADDR_ETH_USDC.length = 20 ∧ POOL_ADDR_WBTC_ETH.length = 20 ∧
    (∀ (mode : Mode) (i : ℕ) (g : ℕ → ℕ) (k : ℕ),
      ∃ bs, (runScenario (scenarioFor mode i) i g k).1 = some bs ∧
        bs.length = 48) ∧
    (∀ (mode : Mode) (g : ℕ → ℕ) (count i k : ℕ),
      ((genFrames mode g i count k).1).isSome) :=
  ⟨rfl, rfl, fun mode i g k => runScenario_48 (scenarioFor mode i) i g k,
   fun mode g count i k => genFrames_isSome mode g count i k⟩
